import Mathlib

/-!
# Verification of the sentra-fim baseline-reconciliation engine

Shallow embedding of `src/fim.rs` (with the metrics surface of
`src/metrics.rs` and the configuration of `src/config.rs`).

Modelling conventions:
* The filesystem visible to the program is the list of directory entries the
  recursive walk over the configured roots yields, in walk order.  Paths in
  the model are already canonical, so `normalize_path` (which in the source
  calls `dunce::canonicalize` and falls back to the input path) is the
  identity.
* `Path::is_file()` in Rust stats the path and returns `false` when the stat
  fails, so an entry whose metadata is unreadable is modelled as
  `isFile = false`; the later `p.metadata()` re-checks in `build_baseline`
  and `scan_diff` therefore never fail on entries that passed `is_file`.
* `File::open`/`read` failures during hashing are modelled by the
  `readable` flag of an entry; `hash_meta` returns an error exactly when the
  source would return `Err`.
* The SQLite `files` table (`path TEXT PRIMARY KEY, hash, size, mtime`) is an
  association list of records; each SQL statement is embedded as an explicit
  operation, including the primary-key uniqueness constraint, and the
  `rebuild` transaction either commits the fully built set or rolls back to
  the previous one.
* The digest functions themselves (blake3, sha256) are uninterpreted but
  executable and injective on contents; all claims are about the control
  flow around them, never about the digests' numeric values.
* Wall-clock time (`now_ms`) is threaded as an explicit `now : Int`
  millisecond parameter; every audit event written during one invocation
  carries that timestamp, as in the source.
-/

namespace SentraFim

deriving instance DecidableEq for Except

/-- File contents as a byte list. -/
abbrev Bytes := List Nat

/-- One entry of the recursive directory walk / live notification universe:
a canonical path together with whether it is a stat-able regular file,
its bytes, its modification time (seconds), and whether opening and
reading it succeeds. -/
structure FsEntry where
  path : String
  isFile : Bool
  content : Bytes
  mtime : Nat
  readable : Bool
deriving Repr, DecidableEq

/-- The filesystem as seen by the program: the walk entries in order. -/
structure Fs where
  entries : List FsEntry
deriving Repr, DecidableEq

/-- Well-formedness of a filesystem snapshot: each canonical path occurs at
most once in the walk. -/
def Fs.wf (fs : Fs) : Prop := (fs.entries.map (fun e => e.path)).Nodup

instance (fs : Fs) : Decidable fs.wf := by
  unfold Fs.wf; infer_instance

/-- Find the entry at a path (the stat / open performed by the source). -/
def Fs.find? (fs : Fs) (p : String) : Option FsEntry :=
  fs.entries.find? (fun e => e.path == p)

/-- `Path::is_file()`: true iff the path stats as a regular file. -/
def Fs.isFile (fs : Fs) (p : String) : Bool :=
  match fs.find? p with
  | some e => e.isFile
  | none => false

/-- Configuration fields the engine reads (`src/config.rs`).  The compiled
glob `GlobSet` built by `build_excluder` from `cfg.exclude` is modelled by
its match predicate. -/
structure Config where
  hash_alg : String
  debounce_ms : Nat
  exclude : String → Bool

/-- `is_excluded(p, &globset)` from `src/fim.rs`. -/
def is_excluded (cfg : Config) (p : String) : Bool := cfg.exclude p

/-- `normalize_path`: canonicalization; the identity on the model's already
canonical paths. -/
def normalize_path (p : String) : String := p

/-- The blake3 hex digest of a byte sequence, uninterpreted but executable. -/
def blake3Hex (c : Bytes) : String := "b3:" ++ toString c

/-- The sha256 hex digest of a byte sequence, uninterpreted but executable. -/
def sha256Hex (c : Bytes) : String := "sha256:" ++ toString c

/-- ASCII lowercasing of one character, as `str::to_lowercase` acts on the
ASCII algorithm names in play. -/
def lowerChar (c : Char) : Char :=
  if 65 ≤ c.toNat ∧ c.toNat ≤ 90 then Char.ofNat (c.toNat + 32) else c

/-- `str::to_lowercase()` on ASCII algorithm names. -/
def toLowerStr (s : String) : String := String.mk (s.data.map lowerChar)

/-- The digest the configured algorithm produces for given contents:
`"sha256"` (after lowercasing) selects sha256, every other name the default
blake3. -/
def digestOf (cfg : Config) (c : Bytes) : String :=
  if toLowerStr cfg.hash_alg == "sha256" then sha256Hex c else blake3Hex c

/-- `hash_meta` applied to an already opened entry: dispatch on the
lowercased configured algorithm name, `"sha256"` selecting sha256 and every
other name taking the default blake3 branch; fails if the file is
unreadable. -/
def hash_metaEntry (cfg : Config) (e : FsEntry) : Except Unit (String × Nat × Nat) :=
  if !e.readable then .error ()
  else
    let size := e.content.length
    let mtime := e.mtime
    if toLowerStr cfg.hash_alg == "sha256" then .ok (sha256Hex e.content, size, mtime)
    else .ok (blake3Hex e.content, size, mtime)

/-- `hash_meta(p, cfg)`: open the file at `p` (error if it does not exist),
then hash it with the configured algorithm. -/
def hash_meta (cfg : Config) (fs : Fs) (p : String) : Except Unit (String × Nat × Nat) :=
  match fs.find? p with
  | none => .error ()
  | some e => hash_metaEntry cfg e

/-- One row of the SQLite `files` table. -/
structure FileRecord where
  path : String
  hash : String
  size : Nat
  mtime : Nat
deriving Repr, DecidableEq

/-- The baseline store: the rows of the `files` table. -/
abbrev Store := List FileRecord

/-- The `path TEXT PRIMARY KEY` invariant: paths are pairwise distinct. -/
def Store.wf (st : Store) : Prop := (st.map (fun r => r.path)).Nodup

instance (st : Store) : Decidable (Store.wf st) := by
  unfold Store.wf; infer_instance

/-- `SELECT hash, size, mtime FROM files WHERE path=?1` (point lookup). -/
def Store.lookup (st : Store) (p : String) : Option FileRecord :=
  st.find? (fun r => r.path == p)

/-- `INSERT OR REPLACE INTO files(...)`: drop any row with the same path,
then add the new row. -/
def Store.insertOrReplace (st : Store) (r : FileRecord) : Store :=
  st.filter (fun x => x.path != r.path) ++ [r]

/-- Plain `INSERT INTO files(...)`: fails on a primary-key conflict. -/
def Store.sqlInsert (st : Store) (r : FileRecord) : Except Unit Store :=
  if st.any (fun x => x.path == r.path) then .error ()
  else .ok (st ++ [r])

/-- `UPDATE files SET hash=?1, size=?2, mtime=?3 WHERE path=?4`. -/
def Store.updateFields (st : Store) (p h : String) (sz mt : Nat) : Store :=
  st.map (fun r => if r.path == p then { r with hash := h, size := sz, mtime := mt } else r)

/-- `DELETE FROM files WHERE path=?1`, returning the new table and the
number of rows affected. -/
def Store.sqlDelete (st : Store) (p : String) : Store × Nat :=
  (st.filter (fun r => r.path != p), (st.filter (fun r => r.path == p)).length)

/-- `UPDATE files SET path=?1 WHERE path=?2`: retarget rows in place,
returning the rows-affected count; the `path` primary key makes the update
fail when it would move a row onto a distinct path that is already
occupied. -/
def Store.sqlUpdatePath (st : Store) (toP fromP : String) : Except Unit (Store × Nat) :=
  let affected := (st.filter (fun r => r.path == fromP)).length
  if affected > 0 && fromP != toP && st.any (fun r => r.path == toP) then .error ()
  else .ok (st.map (fun r => if r.path == fromP then { r with path := toP } else r), affected)

/-- The four metrics of `src/metrics.rs`: three monotone counters and the
tracked-files gauge (an `IntGauge`, so it can go down). -/
structure Metrics where
  created : Nat
  modified : Nat
  deleted : Nat
  tracked_files : Int
deriving Repr, DecidableEq

/-- One serialized `AuditEvent` line (fields that serde skips when `None`
are `Option`s here). -/
structure AuditEvent where
  ts : Int
  kind : String
  path : String
  old_path : Option String := none
  old_hash : Option String := none
  new_hash : Option String := none
  size : Option Nat := none
deriving Repr, DecidableEq

/-- `handle_upsert`: no-op unless the path is a regular file; hash it
(propagating hash errors); if a record exists, overwrite its fields and,
when the hash changed, bump the modified counter and emit a `modify` event;
otherwise insert a fresh record, bump the created counter and the gauge,
and emit a `create` event. -/
def handle_upsert (cfg : Config) (fs : Fs) (now : Int) (p : String)
    (st : Store) (log : List AuditEvent) (m : Metrics) :
    Except Unit (Store × List AuditEvent × Metrics) :=
  if !fs.isFile p then .ok (st, log, m)
  else
    match hash_meta cfg fs p with
    | .error e => .error e
    | .ok (new_hash, size, mtime) =>
      let norm := normalize_path p
      match Store.lookup st norm with
      | some r =>
        let st1 := Store.updateFields st norm new_hash size mtime
        if r.hash != new_hash then
          .ok (st1,
               log ++ [{ ts := now, kind := "modify", path := norm,
                         old_hash := some r.hash, new_hash := some new_hash,
                         size := some size }],
               { m with modified := m.modified + 1 })
        else
          .ok (st1, log, m)
      | none =>
        match Store.sqlInsert st { path := norm, hash := new_hash, size := size, mtime := mtime } with
        | .error e => .error e
        | .ok st1 =>
          .ok (st1,
               log ++ [{ ts := now, kind := "create", path := norm,
                         new_hash := some new_hash, size := some size }],
               { m with created := m.created + 1, tracked_files := m.tracked_files + 1 })

/-- `handle_delete`: delete the row; if one existed, bump the deleted
counter, decrement the gauge and emit a `delete` event. -/
def handle_delete (now : Int) (p : String)
    (st : Store) (log : List AuditEvent) (m : Metrics) :
    Except Unit (Store × List AuditEvent × Metrics) :=
  let norm := normalize_path p
  let del := Store.sqlDelete st norm
  if del.2 > 0 then
    .ok (del.1, log ++ [{ ts := now, kind := "delete", path := norm }],
         { m with deleted := m.deleted + 1, tracked_files := m.tracked_files - 1 })
  else
    .ok (del.1, log, m)

/-- `handle_rename`: retarget the row from the old to the new path
(propagating the primary-key constraint error); when no row was affected
and the target is currently a regular file, hash it (propagating hash
errors) and insert-or-replace a fresh record; emit a `rename` event with
`path = to`, `old_path = from` and no hash fields on every non-error path.
The metrics argument is unused, exactly as `_metrics` in the source. -/
def handle_rename (cfg : Config) (fs : Fs) (now : Int) (fromP toP : String)
    (st : Store) (log : List AuditEvent) (m : Metrics) :
    Except Unit (Store × List AuditEvent × Metrics) :=
  let from_n := normalize_path fromP
  let to_n := normalize_path toP
  match Store.sqlUpdatePath st to_n from_n with
  | .error e => .error e
  | .ok (st1, affected) =>
    let renameEvt : AuditEvent := { ts := now, kind := "rename", path := to_n, old_path := some from_n }
    if affected == 0 then
      if fs.isFile toP then
        match hash_meta cfg fs toP with
        | .error e => .error e
        | .ok (h, size, mtime) =>
          .ok (Store.insertOrReplace st1 { path := to_n, hash := h, size := size, mtime := mtime },
               log ++ [renameEvt], m)
      else .ok (st1, log ++ [renameEvt], m)
    else .ok (st1, log ++ [renameEvt], m)

/-- The mutable state of one `watch_loop` run: the store connection, the
append-only jsonl audit log, the metrics registry, and the process-local
debounce map `last_evt`. -/
structure WatchState where
  store : Store
  log : List AuditEvent
  metrics : Metrics
  last_evt : List (String × Int)
deriving Repr, DecidableEq

/-- `last.get(&key)` on the debounce `HashMap`. -/
def lookupLast (last : List (String × Int)) (k : String) : Option Int :=
  match last.find? (fun kv => kv.1 == k) with
  | some kv => some kv.2
  | none => none

/-- `last.insert(key, now)` on the debounce `HashMap`. -/
def insertLast (last : List (String × Int)) (k : String) (v : Int) : List (String × Int) :=
  (last.filter (fun kv => kv.1 != k)) ++ [(k, v)]

/-- `debounce_hit(&mut last, p, window)`: returns the hit flag and the
updated map.  On a hit (a previous timestamp within the window) the map is
returned unchanged; otherwise `now` is recorded for the path. -/
def debounce_hit (last : List (String × Int)) (p : String) (window : Int) (now : Int) :
    Bool × List (String × Int) :=
  let key := normalize_path p
  match lookupLast last key with
  | some prev =>
    if now - prev ≤ window then (true, last)
    else (false, insertLast last key now)
  | none => (false, insertLast last key now)

/-- The tail of the `Create | Modify | Remove` arm of `watch_loop` after the
debounce test passed: run the matching handler; on success adopt its
outputs, on error log a warning and continue with the state unchanged
except for the already-updated debounce map. -/
def applyPathEvent (cfg : Config) (fs : Fs) (now : Int) (isRemove : Bool) (p : String)
    (s : WatchState) (last1 : List (String × Int)) : WatchState :=
  match (if isRemove then handle_delete now p s.store s.log s.metrics
         else handle_upsert cfg fs now p s.store s.log s.metrics) with
  | .ok (st, lg, m) => { store := st, log := lg, metrics := m, last_evt := last1 }
  | .error _ => { s with last_evt := last1 }

/-- One path of a `Create | Modify | Remove` notification in `watch_loop`:
drop excluded paths, drop debounce hits (`continue`), otherwise dispatch to
`handle_delete` or `handle_upsert`. -/
def processPathEvent (cfg : Config) (fs : Fs) (now : Int) (isRemove : Bool) (p : String)
    (s : WatchState) : WatchState :=
  if is_excluded cfg p then s
  else
    let r := debounce_hit s.last_evt p (cfg.debounce_ms : Int) now
    if r.1 then { s with last_evt := r.2 }
    else applyPathEvent cfg fs now isRemove p s r.2

/-- The tail of the two-path rename arm after debounce: run
`handle_rename`; on success adopt its outputs, on error log a warning and
continue with only the debounce map updated. -/
def applyRenameEvent (cfg : Config) (fs : Fs) (now : Int) (fromP toP : String)
    (s : WatchState) (last1 : List (String × Int)) : WatchState :=
  match handle_rename cfg fs now fromP toP s.store s.log s.metrics with
  | .ok (st, lg, m) => { store := st, log := lg, metrics := m, last_evt := last1 }
  | .error _ => { s with last_evt := last1 }

/-- The two-path `Modify(Name(_))` arm of `watch_loop`: drop the event if
either path is excluded; then the source tests
`debounce_hit(from) && debounce_hit(to)` — the Rust `&&` short-circuits, so
the test on `to` runs only when the test on `from` reported a hit — and
suppresses handling when both hit. -/
def processRenameEvent (cfg : Config) (fs : Fs) (now : Int) (fromP toP : String)
    (s : WatchState) : WatchState :=
  if is_excluded cfg fromP || is_excluded cfg toP then s
  else
    let r1 := debounce_hit s.last_evt fromP (cfg.debounce_ms : Int) now
    if r1.1 then
      let r2 := debounce_hit r1.2 toP (cfg.debounce_ms : Int) now
      if r2.1 then { s with last_evt := r2.2 }
      else applyRenameEvent cfg fs now fromP toP s r2.2
    else applyRenameEvent cfg fs now fromP toP s r1.2

/-- The record `build_baseline` (and a faithful rescan) stores for a walk
entry: one row keyed by the canonical path, holding the configured digest of
the contents together with size and mtime. -/
def mkRecord (cfg : Config) (e : FsEntry) : FileRecord :=
  { path := normalize_path e.path,
    hash := digestOf cfg e.content,
    size := e.content.length,
    mtime := e.mtime }

/-- The walk entries the tree passes act on, for an arbitrary entry list:
regular files whose paths are not excluded. -/
def walkL (cfg : Config) (l : List FsEntry) : List FsEntry :=
  l.filter (fun e => e.isFile && !is_excluded cfg e.path)

/-- The walk entries `build_baseline` and `scan_diff` act on: regular files
whose paths are not excluded. -/
def walkFiles (cfg : Config) (fs : Fs) : List FsEntry :=
  walkL cfg fs.entries

/-- The spec's `changed` test for one walked file: a store record exists at
its path and any of hash, size or modifiedAt differ. -/
def changedEntry (cfg : Config) (st : Store) (e : FsEntry) : Bool :=
  match Store.lookup st e.path with
  | some r => r.hash != digestOf cfg e.content || r.size != e.content.length || r.mtime != e.mtime
  | none => false

/-- The spec's classification of the filesystem pass, per walked file in
order: `added` when the store has no record at the path, `changed` when a
record exists with any field differing (the event carrying old and new
hash), and no event when present and identical. -/
def specWalkEvents (cfg : Config) (st : Store) (now : Int) (l : List FsEntry) : List AuditEvent :=
  (walkL cfg l).filterMap (fun e =>
    match Store.lookup st e.path with
    | none => some { ts := now, kind := "added", path := e.path,
                     new_hash := some (digestOf cfg e.content), size := some e.content.length }
    | some r =>
      if r.hash != digestOf cfg e.content || r.size != e.content.length || r.mtime != e.mtime then
        some { ts := now, kind := "changed", path := e.path,
               old_hash := some r.hash, new_hash := some (digestOf cfg e.content),
               size := some e.content.length }
      else none)

/-- Size of the spec's `added` set: walked files absent from the store. -/
def addedOfWalk (cfg : Config) (st : Store) (l : List FsEntry) : Nat :=
  ((walkL cfg l).filter (fun e => (Store.lookup st e.path).isNone)).length

/-- Size of the spec's `changed` set. -/
def changedOfWalk (cfg : Config) (st : Store) (l : List FsEntry) : Nat :=
  ((walkL cfg l).filter (changedEntry cfg st)).length

/-- The paths recorded in the scanner's `seen` set: one per walked file. -/
def seenPaths (cfg : Config) (l : List FsEntry) : List String :=
  (walkL cfg l).map (fun e => e.path)

/-- The spec's `missing` set: store records whose path was not seen on
disk. -/
def missingOfStore (cfg : Config) (l : List FsEntry) (st : Store) : List FileRecord :=
  st.filter (fun r => !(seenPaths cfg l).contains r.path)

/-- The spec's `missing` events, one per missing record in store order. -/
def specMissingEvents (now : Int) (cfg : Config) (l : List FsEntry) (st : Store) : List AuditEvent :=
  (missingOfStore cfg l st).map (fun r => { ts := now, kind := "missing", path := r.path })

/-- Every non-excluded regular file of the walk is readable (no hashing
failure can occur). -/
def allWalkReadable (cfg : Config) (fs : Fs) : Prop :=
  ∀ e ∈ fs.entries, e.isFile = true → is_excluded cfg e.path = false → e.readable = true

instance (cfg : Config) (fs : Fs) : Decidable (allWalkReadable cfg fs) := by
  unfold allWalkReadable; infer_instance

/-- The body of the `rebuild` transaction after `DELETE FROM files`: walk
the entries, skipping non-files and excluded paths, hashing each remaining
file (any hash error aborts the transaction) and inserting its row. -/
def build_tx (cfg : Config) (fs : Fs) : List FsEntry → Store → Nat → Except Unit (Store × Nat)
  | [], st, n => .ok (st, n)
  | e :: rest, st, n =>
    if !e.isFile then build_tx cfg fs rest st n
    else if is_excluded cfg e.path then build_tx cfg fs rest st n
    else
      match hash_meta cfg fs e.path with
      | .error err => .error err
      | .ok (h, size, mtime) =>
        build_tx cfg fs rest
          (Store.insertOrReplace st { path := normalize_path e.path, hash := h, size := size, mtime := mtime })
          (n + 1)

/-- `build_baseline`: run the immediate transaction (`DELETE FROM files`
then one insert per walked file).  On success the commit installs the new
set and the indexed count is reported; on error the transaction is dropped
uncommitted, so the durable store keeps its previous record set.  Returns
the invocation result and the durable store contents after the call. -/
def build_baseline (cfg : Config) (fs : Fs) (st : Store) : Except Unit Nat × Store :=
  match build_tx cfg fs fs.entries [] 0 with
  | .ok (newStore, n) => (.ok n, newStore)
  | .error e => (.error e, st)

/-- What `scan_diff` reports: the diff events (jsonl lines, or the
equivalent printed `ADDED`/`CHANGED`/`MISSING` lines) and the three final
summary counts. -/
structure ScanResult where
  events : List AuditEvent
  added : Nat
  changed : Nat
  missing : Nat
deriving Repr, DecidableEq

/-- The filesystem pass of `scan_diff`: walk the entries, skipping
non-files and excluded paths; hash each remaining file (a hash error aborts
the scan); record its path in the `known` set; classify it `changed` when a
store row exists with any of hash, size or mtime differing, `added` when no
row exists, and silently identical otherwise. -/
def scan_walk (cfg : Config) (fs : Fs) (st : Store) (now : Int) :
    List FsEntry → List String → List AuditEvent → Nat → Nat →
    Except Unit (List String × List AuditEvent × Nat × Nat)
  | [], known, evts, a, c => .ok (known, evts, a, c)
  | e :: rest, known, evts, a, c =>
    if !e.isFile then scan_walk cfg fs st now rest known evts a c
    else if is_excluded cfg e.path then scan_walk cfg fs st now rest known evts a c
    else
      match hash_meta cfg fs e.path with
      | .error err => .error err
      | .ok (h, size, mtime) =>
        let norm := normalize_path e.path
        let known1 := known ++ [norm]
        match Store.lookup st norm with
        | some r =>
          if r.hash != h || r.size != size || r.mtime != mtime then
            scan_walk cfg fs st now rest known1
              (evts ++ [{ ts := now, kind := "changed", path := norm,
                          old_hash := some r.hash, new_hash := some h, size := some size }])
              a (c + 1)
          else scan_walk cfg fs st now rest known1 evts a c
        | none =>
          scan_walk cfg fs st now rest known1
            (evts ++ [{ ts := now, kind := "added", path := norm,
                        new_hash := some h, size := some size }])
            (a + 1) c

/-- The removed-files pass of `scan_diff`: enumerate all store rows and
classify those whose path was not seen on disk as `missing`. -/
def scan_missing (now : Int) (known : List String) :
    List FileRecord → List AuditEvent → Nat → List AuditEvent × Nat
  | [], evts, miss => (evts, miss)
  | r :: rest, evts, miss =>
    if known.contains r.path then scan_missing now known rest evts miss
    else scan_missing now known rest
      (evts ++ [{ ts := now, kind := "missing", path := r.path }]) (miss + 1)

/-- `scan_diff`: the filesystem pass followed by the removed-files pass;
only `SELECT` statements touch the store, which is returned as the scan
leaves it.  The summary line is printed exactly when the result is `.ok`;
a hash error propagates out of the function before it. -/
def scan_diff (cfg : Config) (fs : Fs) (st : Store) (now : Int) :
    Except Unit ScanResult × Store :=
  match scan_walk cfg fs st now fs.entries [] [] 0 0 with
  | .error e => (.error e, st)
  | .ok (known, evts, a, c) =>
    let miss := scan_missing now known st evts 0
    (.ok { events := miss.1, added := a, changed := c, missing := miss.2 }, st)

/-- Erase the wall-clock timestamp of an audit event. -/
def stripTs (e : AuditEvent) : AuditEvent := { e with ts := 0 }

/-- Erase the wall-clock timestamps from a scan outcome. -/
def stripScan (r : Except Unit ScanResult) : Except Unit ScanResult :=
  match r with
  | .error e => .error e
  | .ok res => .ok { res with events := res.events.map stripTs }

/-- Erase the wall-clock timestamps from a `scan_walk` outcome. -/
def stripWalk (x : Except Unit (List String × List AuditEvent × Nat × Nat)) :
    Except Unit (List String × List AuditEvent × Nat × Nat) :=
  match x with
  | .error e => .error e
  | .ok (k, ev, a, c) => .ok (k, ev.map stripTs, a, c)

/-! ## Basic lemmas about the embedded operations -/

theorem find?_key_of_nodup {α : Type} (key : α → String) :
    ∀ (l : List α), (l.map key).Nodup → ∀ e ∈ l, l.find? (fun x => key x == key e) = some e := by
  intro l
  induction l with
  | nil => intro _ e he; cases he
  | cons hd tl ih =>
    intro hnd e he
    simp only [List.map_cons, List.nodup_cons, List.mem_map] at hnd
    rcases List.mem_cons.mp he with rfl | htl
    · exact List.find?_cons_of_pos _ (by simp)
    · have hne : ¬ (key hd == key e) = true := by
        simp only [beq_iff_eq]
        intro heq
        exact hnd.1 ⟨e, htl, heq.symm⟩
      rw [List.find?_cons_of_neg (p := fun x => key x == key e) tl hne]
      exact ih hnd.2 e htl

theorem Fs.find?_of_wf (fs : Fs) (hwf : fs.wf) {e : FsEntry} (he : e ∈ fs.entries) :
    fs.find? e.path = some e := by
  have h := find?_key_of_nodup (fun x : FsEntry => x.path) fs.entries hwf e he
  exact h

theorem Store.lookup_of_wf (st : Store) (hwf : Store.wf st) {r : FileRecord} (hr : r ∈ st) :
    Store.lookup st r.path = some r := by
  have h := find?_key_of_nodup (fun x : FileRecord => x.path) st hwf r hr
  exact h

theorem Store.lookup_none_not_mem {st : Store} {p : String}
    (h : Store.lookup st p = none) : ∀ r ∈ st, r.path ≠ p := by
  intro r hr
  have := List.find?_eq_none.mp h r hr
  simpa using this

theorem Store.any_eq_false_of_lookup_none {st : Store} {p : String}
    (h : Store.lookup st p = none) : st.any (fun x => x.path == p) = false := by
  rw [List.any_eq_false]
  intro r hr
  simpa using Store.lookup_none_not_mem h r hr

theorem Store.filter_len_pos_of_lookup_some {st : Store} {q : String} {r : FileRecord}
    (h : Store.lookup st q = some r) : 0 < (st.filter (fun x => x.path == q)).length := by
  have h2 : st.find? (fun x => x.path == q) = some r := h
  have hmem : r ∈ st := List.mem_of_find?_eq_some h2
  have hp := List.find?_some (p := fun x : FileRecord => x.path == q) h2
  have hmf : r ∈ st.filter (fun x => x.path == q) := List.mem_filter.mpr ⟨hmem, hp⟩
  exact List.length_pos.mpr (fun hnil => by simp [hnil] at hmf)

theorem Store.any_eq_true_of_lookup_some {st : Store} {q : String} {r : FileRecord}
    (h : Store.lookup st q = some r) : st.any (fun x => x.path == q) = true := by
  have h2 : st.find? (fun x => x.path == q) = some r := h
  rw [List.any_eq_true]
  exact ⟨r, List.mem_of_find?_eq_some h2, List.find?_some (p := fun x : FileRecord => x.path == q) h2⟩

theorem lookupLast_insertLast_self (l : List (String × Int)) (k : String) (v : Int) :
    lookupLast (insertLast l k v) k = some v := by
  unfold lookupLast insertLast
  rw [List.find?_append]
  have hfil : (l.filter (fun kv => kv.1 != k)).find? (fun kv => kv.1 == k) = none := by
    rw [List.find?_eq_none]
    intro kv hkv
    have := (List.mem_filter.mp hkv).2
    simp only [bne_iff_ne, ne_eq, decide_eq_true_eq] at this
    simpa using this
  rw [hfil]
  simp [List.find?]

theorem lookupLast_insertLast_ne (l : List (String × Int)) {k k2 : String} (v : Int)
    (hne : k2 ≠ k) : lookupLast (insertLast l k v) k2 = lookupLast l k2 := by
  unfold lookupLast insertLast
  rw [List.find?_append]
  have htail : ([(k, v)].find? (fun kv => kv.1 == k2)) = none := by
    have hkk : (k == k2) = false := beq_eq_false_iff_ne.mpr (Ne.symm hne)
    simp [List.find?, hkk]
  rw [htail]
  have hfil : (l.filter (fun kv => kv.1 != k)).find? (fun kv => kv.1 == k2)
      = l.find? (fun kv => kv.1 == k2) := by
    induction l with
    | nil => rfl
    | cons hd tl ih =>
      by_cases hhd : hd.1 = k2
      · have hkept : (hd.1 != k) = true := by
          simp only [bne_iff_ne, ne_eq]
          rw [hhd]; exact hne
        rw [List.filter_cons, if_pos hkept,
            List.find?_cons_of_pos _ (by simp [hhd]),
            List.find?_cons_of_pos _ (by simp [hhd])]
      · rw [List.find?_cons_of_neg _ (by simp [hhd])]
        by_cases hk : (hd.1 != k) = true
        · rw [List.filter_cons, if_pos hk, List.find?_cons_of_neg _ (by simp [hhd])]
          exact ih
        · rw [List.filter_cons, if_neg hk]
          exact ih
  rw [hfil]
  cases l.find? (fun kv => kv.1 == k2) <;> rfl

/-! ## Case analyses of the hashing pipeline and the event handlers -/

theorem Fs.isFile_eq {fs : Fs} {p : String} {e : FsEntry} (hfind : fs.find? p = some e) :
    fs.isFile p = e.isFile := by
  simp [Fs.isFile, hfind]

theorem hash_metaEntry_readable (cfg : Config) {e : FsEntry} (h : e.readable = true) :
    hash_metaEntry cfg e = .ok (digestOf cfg e.content, e.content.length, e.mtime) := by
  by_cases hc : (toLowerStr cfg.hash_alg == "sha256") = true
  · simp [hash_metaEntry, digestOf, h, hc]
  · simp [hash_metaEntry, digestOf, h, hc]

theorem hash_metaEntry_unreadable (cfg : Config) {e : FsEntry} (h : e.readable = false) :
    hash_metaEntry cfg e = .error () := by
  simp [hash_metaEntry, h]

theorem hash_meta_found {cfg : Config} {fs : Fs} {p : String} {e : FsEntry}
    (hfind : fs.find? p = some e) : hash_meta cfg fs p = hash_metaEntry cfg e := by
  simp [hash_meta, hfind]

theorem handle_upsert_not_file {cfg : Config} {fs : Fs} {now : Int} {p : String}
    {st : Store} {log : List AuditEvent} {m : Metrics} (hf : fs.isFile p = false) :
    handle_upsert cfg fs now p st log m = .ok (st, log, m) := by
  simp [handle_upsert, hf]

theorem handle_upsert_unreadable {cfg : Config} {fs : Fs} {now : Int} {p : String}
    {st : Store} {log : List AuditEvent} {m : Metrics} {e : FsEntry}
    (hfind : fs.find? p = some e) (hf : e.isFile = true) (hr : e.readable = false) :
    handle_upsert cfg fs now p st log m = .error () := by
  simp [handle_upsert, Fs.isFile_eq hfind, hf, hash_meta_found hfind,
        hash_metaEntry_unreadable cfg hr]

theorem handle_upsert_modify {cfg : Config} {fs : Fs} {now : Int} {p : String}
    {st : Store} {log : List AuditEvent} {m : Metrics} {e : FsEntry} {r : FileRecord}
    (hfind : fs.find? p = some e) (hf : e.isFile = true) (hr : e.readable = true)
    (hlk : Store.lookup st p = some r) (hne : r.hash ≠ digestOf cfg e.content) :
    handle_upsert cfg fs now p st log m =
      .ok (Store.updateFields st p (digestOf cfg e.content) e.content.length e.mtime,
           log ++ [{ ts := now, kind := "modify", path := p,
                     old_hash := some r.hash, new_hash := some (digestOf cfg e.content),
                     size := some e.content.length }],
           { m with modified := m.modified + 1 }) := by
  simp [handle_upsert, Fs.isFile_eq hfind, hf, hash_meta_found hfind,
        hash_metaEntry_readable cfg hr, normalize_path, hlk, bne_iff_ne, hne]

theorem handle_upsert_silent {cfg : Config} {fs : Fs} {now : Int} {p : String}
    {st : Store} {log : List AuditEvent} {m : Metrics} {e : FsEntry} {r : FileRecord}
    (hfind : fs.find? p = some e) (hf : e.isFile = true) (hr : e.readable = true)
    (hlk : Store.lookup st p = some r) (heq : r.hash = digestOf cfg e.content) :
    handle_upsert cfg fs now p st log m =
      .ok (Store.updateFields st p (digestOf cfg e.content) e.content.length e.mtime, log, m) := by
  simp [handle_upsert, Fs.isFile_eq hfind, hf, hash_meta_found hfind,
        hash_metaEntry_readable cfg hr, normalize_path, hlk, bne_iff_ne, heq]

theorem handle_upsert_create {cfg : Config} {fs : Fs} {now : Int} {p : String}
    {st : Store} {log : List AuditEvent} {m : Metrics} {e : FsEntry}
    (hfind : fs.find? p = some e) (hf : e.isFile = true) (hr : e.readable = true)
    (hlk : Store.lookup st p = none) :
    handle_upsert cfg fs now p st log m =
      .ok (st ++ [{ path := p, hash := digestOf cfg e.content,
                    size := e.content.length, mtime := e.mtime }],
           log ++ [{ ts := now, kind := "create", path := p,
                     new_hash := some (digestOf cfg e.content),
                     size := some e.content.length }],
           { m with created := m.created + 1, tracked_files := m.tracked_files + 1 }) := by
  have hins := Store.any_eq_false_of_lookup_none hlk
  simp [handle_upsert, Fs.isFile_eq hfind, hf, hash_meta_found hfind,
        hash_metaEntry_readable cfg hr, normalize_path, hlk, Store.sqlInsert, hins]

theorem filter_path_eq_nil_of_lookup_none {st : Store} {p : String}
    (hlk : Store.lookup st p = none) : st.filter (fun r => r.path == p) = [] := by
  rw [List.filter_eq_nil_iff]
  intro r hr
  simpa using Store.lookup_none_not_mem hlk r hr

theorem map_retarget_id_of_lookup_none {st : Store} {fromP : String} (toP : String)
    (hlk : Store.lookup st fromP = none) :
    st.map (fun r => if r.path == fromP then { r with path := toP } else r) = st := by
  have h : ∀ r ∈ st, (if (r.path == fromP) = true then { r with path := toP } else r) = r := by
    intro r hr
    rw [if_neg]
    simp only [beq_iff_eq]
    exact Store.lookup_none_not_mem hlk r hr
  calc st.map (fun r => if r.path == fromP then { r with path := toP } else r)
      = st.map id := List.map_congr_left h
    _ = st := List.map_id st

theorem handle_rename_retarget {cfg : Config} {fs : Fs} {now : Int} {fromP toP : String}
    {st : Store} {log : List AuditEvent} {m : Metrics} {r : FileRecord}
    (hlk : Store.lookup st fromP = some r)
    (hok : toP = fromP ∨ Store.lookup st toP = none) :
    handle_rename cfg fs now fromP toP st log m =
      .ok (st.map (fun x => if x.path == fromP then { x with path := toP } else x),
           log ++ [{ ts := now, kind := "rename", path := toP, old_path := some fromP }],
           m) := by
  have hpos := Store.filter_len_pos_of_lookup_some hlk
  have hcond : ((st.filter (fun x => x.path == fromP)).length > 0 && fromP != toP
      && st.any (fun x => x.path == toP)) = false := by
    rcases hok with heq | hnone
    · simp [heq]
    · simp [Store.any_eq_false_of_lookup_none hnone]
  have haff : ((st.filter (fun x => x.path == fromP)).length == 0) = false := by
    simp only [beq_eq_false_iff_ne, ne_eq]
    omega
  simp [handle_rename, Store.sqlUpdatePath, normalize_path, hcond, haff]

theorem handle_rename_conflict {cfg : Config} {fs : Fs} {now : Int} {fromP toP : String}
    {st : Store} {log : List AuditEvent} {m : Metrics} {r r2 : FileRecord}
    (hne : fromP ≠ toP)
    (h1 : Store.lookup st fromP = some r) (h2 : Store.lookup st toP = some r2) :
    handle_rename cfg fs now fromP toP st log m = .error () := by
  have hpos := Store.filter_len_pos_of_lookup_some h1
  have hany := Store.any_eq_true_of_lookup_some h2
  have hcond : ((st.filter (fun x => x.path == fromP)).length > 0 && fromP != toP
      && st.any (fun x => x.path == toP)) = true := by
    simp only [Bool.and_eq_true, bne_iff_ne, ne_eq, decide_eq_true_eq]
    exact ⟨⟨by omega, hne⟩, hany⟩
  simp [handle_rename, Store.sqlUpdatePath, normalize_path, hcond]

theorem handle_rename_fresh {cfg : Config} {fs : Fs} {now : Int} {fromP toP : String}
    {st : Store} {log : List AuditEvent} {m : Metrics} {e : FsEntry}
    (hlk : Store.lookup st fromP = none)
    (hfind : fs.find? toP = some e) (hf : e.isFile = true) (hr : e.readable = true) :
    handle_rename cfg fs now fromP toP st log m =
      .ok (Store.insertOrReplace st
             { path := toP, hash := digestOf cfg e.content,
               size := e.content.length, mtime := e.mtime },
           log ++ [{ ts := now, kind := "rename", path := toP, old_path := some fromP }],
           m) := by
  have hnil := filter_path_eq_nil_of_lookup_none hlk
  have hmap := map_retarget_id_of_lookup_none toP hlk
  simp only [beq_iff_eq] at hmap
  simp [handle_rename, Store.sqlUpdatePath, normalize_path, hnil, hmap,
        Fs.isFile_eq hfind, hf, hash_meta_found hfind, hash_metaEntry_readable cfg hr]

theorem handle_rename_fresh_nofile {cfg : Config} {fs : Fs} {now : Int} {fromP toP : String}
    {st : Store} {log : List AuditEvent} {m : Metrics}
    (hlk : Store.lookup st fromP = none) (hf : fs.isFile toP = false) :
    handle_rename cfg fs now fromP toP st log m =
      .ok (st, log ++ [{ ts := now, kind := "rename", path := toP, old_path := some fromP }],
           m) := by
  have hnil := filter_path_eq_nil_of_lookup_none hlk
  have hmap := map_retarget_id_of_lookup_none toP hlk
  simp only [beq_iff_eq] at hmap
  simp [handle_rename, Store.sqlUpdatePath, normalize_path, hnil, hmap, hf]

theorem handle_rename_fresh_unreadable {cfg : Config} {fs : Fs} {now : Int}
    {fromP toP : String} {st : Store} {log : List AuditEvent} {m : Metrics} {e : FsEntry}
    (hlk : Store.lookup st fromP = none)
    (hfind : fs.find? toP = some e) (hf : e.isFile = true) (hr : e.readable = false) :
    handle_rename cfg fs now fromP toP st log m = .error () := by
  have hnil := filter_path_eq_nil_of_lookup_none hlk
  have hmap := map_retarget_id_of_lookup_none toP hlk
  simp only [beq_iff_eq] at hmap
  simp [handle_rename, Store.sqlUpdatePath, normalize_path, hnil, hmap,
        Fs.isFile_eq hfind, hf, hash_meta_found hfind, hash_metaEntry_unreadable cfg hr]

theorem Fs.isFile_some {fs : Fs} {p : String} (h : fs.isFile p = true) :
    ∃ e, fs.find? p = some e ∧ e.isFile = true := by
  unfold Fs.isFile at h
  cases hf : fs.find? p with
  | none => rw [hf] at h; cases h
  | some e => rw [hf] at h; exact ⟨e, rfl, h⟩

theorem handle_rename_metrics_unchanged {cfg : Config} {fs : Fs} {now : Int}
    {fromP toP : String} {st : Store} {log : List AuditEvent} {m : Metrics}
    {out : Store × List AuditEvent × Metrics}
    (h : handle_rename cfg fs now fromP toP st log m = .ok out) : out.2.2 = m := by
  cases hfrom : Store.lookup st fromP with
  | none =>
    cases hfile : fs.isFile toP with
    | true =>
      obtain ⟨e, hfind, hef⟩ := Fs.isFile_some hfile
      cases hread : e.readable with
      | true =>
        rw [handle_rename_fresh hfrom hfind hef hread] at h
        injection h with h2; rw [← h2]
      | false =>
        rw [handle_rename_fresh_unreadable hfrom hfind hef hread] at h
        cases h
    | false =>
      rw [handle_rename_fresh_nofile hfrom hfile] at h
      injection h with h2; rw [← h2]
  | some r =>
    by_cases hto : toP = fromP ∨ Store.lookup st toP = none
    · rw [handle_rename_retarget hfrom hto] at h
      injection h with h2; rw [← h2]
    · push_neg at hto
      obtain ⟨hne, hsome⟩ := hto
      cases hres : Store.lookup st toP with
      | none => exact absurd hres hsome
      | some r2 =>
        rw [handle_rename_conflict (fun hq => hne hq.symm) hfrom hres] at h
        cases h

theorem insertOrReplace_of_lookup_none {st : Store} {r : FileRecord}
    (hlk : Store.lookup st r.path = none) : Store.insertOrReplace st r = st ++ [r] := by
  unfold Store.insertOrReplace
  congr 1
  rw [List.filter_eq_self]
  intro x hx
  simpa using Store.lookup_none_not_mem hlk x hx

/-! ## Claim theorems -/

/-- C9: for every file path and every configured algorithm name that is not
a recognized algorithm (neither blake3 nor sha256 after lowercasing),
`hash_meta` behaves exactly as it does for the default blake3
configuration, returning the same (digest, size, modifiedAt) triple (and
failing only where blake3 would). -/
theorem hash_meta_unknown_alg_default (cfg : Config) (fs : Fs) (p : String)
    (_h1 : toLowerStr cfg.hash_alg ≠ "blake3") (h2 : toLowerStr cfg.hash_alg ≠ "sha256") :
    hash_meta cfg fs p = hash_meta { cfg with hash_alg := "blake3" } fs p := by
  have hc : (toLowerStr cfg.hash_alg == "sha256") = false := beq_eq_false_iff_ne.mpr h2
  have hb : (toLowerStr "blake3" == "sha256") = false := by decide
  unfold hash_meta
  cases fs.find? p with
  | none => rfl
  | some e => simp [hash_metaEntry, hc, hb]

/-- Witness for C9 at the unrecognized algorithm name "md5". -/
theorem hash_meta_unknown_alg_default_witness :
    toLowerStr "md5" ≠ "blake3" ∧ toLowerStr "md5" ≠ "sha256" ∧
    hash_meta ⟨"md5", 250, fun _ => false⟩ ⟨[⟨"/a", true, [1], 2, true⟩]⟩ "/a"
      = hash_meta ⟨"blake3", 250, fun _ => false⟩ ⟨[⟨"/a", true, [1], 2, true⟩]⟩ "/a" :=
  ⟨by decide, by decide,
   hash_meta_unknown_alg_default ⟨"md5", 250, fun _ => false⟩
     ⟨[⟨"/a", true, [1], 2, true⟩]⟩ "/a" (by decide) (by decide)⟩

/-- C2: the live upsert procedure. For every path: a path that is not
currently a regular file is a no-op with store, log and metrics all
unchanged; for a regular readable file with an existing record the fields
are overwritten, and exactly when the hash changed a `modify` event with
old and new hash is appended and the modified counter incremented (all else
unchanged), while an unchanged hash updates silently with no event and no
counter change; with no existing record a fresh record is inserted, a
`create` event carrying only the new hash is appended, and the created
counter and tracked-files gauge are incremented. -/
theorem handle_upsert_spec (cfg : Config) (fs : Fs) (now : Int) (p : String)
    (st : Store) (log : List AuditEvent) (m : Metrics) :
    (fs.isFile p = false → handle_upsert cfg fs now p st log m = .ok (st, log, m)) ∧
    (∀ e, fs.find? p = some e → e.isFile = true → e.readable = true →
      (∀ r, Store.lookup st p = some r →
        (r.hash ≠ digestOf cfg e.content →
          handle_upsert cfg fs now p st log m =
            .ok (Store.updateFields st p (digestOf cfg e.content) e.content.length e.mtime,
                 log ++ [{ ts := now, kind := "modify", path := p,
                           old_hash := some r.hash, new_hash := some (digestOf cfg e.content),
                           size := some e.content.length }],
                 { m with modified := m.modified + 1 })) ∧
        (r.hash = digestOf cfg e.content →
          handle_upsert cfg fs now p st log m =
            .ok (Store.updateFields st p (digestOf cfg e.content) e.content.length e.mtime,
                 log, m))) ∧
      (Store.lookup st p = none →
        handle_upsert cfg fs now p st log m =
          .ok (st ++ [{ path := p, hash := digestOf cfg e.content,
                        size := e.content.length, mtime := e.mtime }],
               log ++ [{ ts := now, kind := "create", path := p,
                         new_hash := some (digestOf cfg e.content),
                         size := some e.content.length }],
               { m with created := m.created + 1,
                        tracked_files := m.tracked_files + 1 }))) := by
  refine ⟨fun hf => handle_upsert_not_file hf, fun e hfind hf hr => ⟨fun r hlk => ⟨?_, ?_⟩, ?_⟩⟩
  · exact fun hne => handle_upsert_modify hfind hf hr hlk hne
  · exact fun heq => handle_upsert_silent hfind hf hr hlk heq
  · exact fun hlk => handle_upsert_create hfind hf hr hlk

/-- Witness for C2: the create branch at a concrete one-file filesystem and
empty store. -/
theorem handle_upsert_spec_witness :
    handle_upsert ⟨"blake3", 250, fun _ => false⟩ ⟨[⟨"/a", true, [1], 2, true⟩]⟩ 0 "/a" [] [] ⟨0, 0, 0, 0⟩
      = .ok ([{ path := "/a", hash := blake3Hex [1], size := 1, mtime := 2 }],
             [{ ts := 0, kind := "create", path := "/a",
                new_hash := some (blake3Hex [1]), size := some 1 }],
             ⟨1, 0, 0, 1⟩) := by
  have h := ((handle_upsert_spec ⟨"blake3", 250, fun _ => false⟩ ⟨[⟨"/a", true, [1], 2, true⟩]⟩
      0 "/a" [] [] ⟨0, 0, 0, 0⟩).2 ⟨"/a", true, [1], 2, true⟩ (by decide) rfl rfl).2 (by decide)
  exact h

/-- C7 counterexample: a processed rename whose source and target paths are
both tracked hits the `path` primary-key constraint: `handle_rename`
returns an error and, contrary to the claim, neither retargets the record
nor emits any `rename` AuditEvent. -/
theorem handle_rename_unconditional_event_cex :
    handle_rename ⟨"blake3", 250, fun _ => false⟩ ⟨[]⟩ 0 "/a" "/b"
      [⟨"/a", "h1", 1, 1⟩, ⟨"/b", "h2", 2, 2⟩] [] ⟨0, 0, 0, 0⟩ = .error () := by
  decide

/-- C7 as amended: for every processed two-path rename event, provided the
store update itself cannot fail — no distinct tracked record already
occupies the target path while the old path is tracked, and the
fresh-insert hashing succeeds — a rename AuditEvent with path = to,
oldPath = from and no hash fields is emitted: with a record at the old path
it is retargeted in place preserving hash/size/modifiedAt; with none and
the target a readable regular file a fresh record is inserted; with none
and no file at the target only the event is emitted.  When the constraint
is violated, or the fresh-insert hashing fails, the error propagates and no
event is emitted. -/
theorem handle_rename_spec (cfg : Config) (fs : Fs) (now : Int) (fromP toP : String)
    (st : Store) (log : List AuditEvent) (m : Metrics) :
    (∀ r, Store.lookup st fromP = some r → (toP = fromP ∨ Store.lookup st toP = none) →
      handle_rename cfg fs now fromP toP st log m =
        .ok (st.map (fun x => if x.path == fromP then { x with path := toP } else x),
             log ++ [{ ts := now, kind := "rename", path := toP, old_path := some fromP }],
             m)) ∧
    (Store.lookup st fromP = none →
      ∀ e, fs.find? toP = some e → e.isFile = true → e.readable = true →
      handle_rename cfg fs now fromP toP st log m =
        .ok (Store.insertOrReplace st
               { path := toP, hash := digestOf cfg e.content,
                 size := e.content.length, mtime := e.mtime },
             log ++ [{ ts := now, kind := "rename", path := toP, old_path := some fromP }],
             m)) ∧
    (Store.lookup st fromP = none → fs.isFile toP = false →
      handle_rename cfg fs now fromP toP st log m =
        .ok (st, log ++ [{ ts := now, kind := "rename", path := toP, old_path := some fromP }],
             m)) ∧
    (∀ r r2, fromP ≠ toP → Store.lookup st fromP = some r → Store.lookup st toP = some r2 →
      handle_rename cfg fs now fromP toP st log m = .error ()) ∧
    (Store.lookup st fromP = none →
      ∀ e, fs.find? toP = some e → e.isFile = true → e.readable = false →
      handle_rename cfg fs now fromP toP st log m = .error ()) := by
  refine ⟨fun r hlk hok => handle_rename_retarget hlk hok,
          fun hlk e hfind hf hr => handle_rename_fresh hlk hfind hf hr,
          fun hlk hf => handle_rename_fresh_nofile hlk hf,
          fun r r2 hne h1 h2 => handle_rename_conflict hne h1 h2,
          fun hlk e hfind hf hr => handle_rename_fresh_unreadable hlk hfind hf hr⟩

/-- Witness for C7 as amended: the retarget branch at a concrete one-record
store, showing the preserved fields and the emitted rename event. -/
theorem handle_rename_spec_witness :
    handle_rename ⟨"blake3", 250, fun _ => false⟩ ⟨[]⟩ 0 "/a" "/b"
      [⟨"/a", "h", 1, 1⟩] [] ⟨0, 0, 0, 0⟩
      = .ok ([{ path := "/b", hash := "h", size := 1, mtime := 1 }],
             [{ ts := 0, kind := "rename", path := "/b", old_path := some "/a" }],
             ⟨0, 0, 0, 0⟩) := by
  have h := (handle_rename_spec ⟨"blake3", 250, fun _ => false⟩ ⟨[]⟩ 0 "/a" "/b"
      [⟨"/a", "h", 1, 1⟩] [] ⟨0, 0, 0, 0⟩).1 ⟨"/a", "h", 1, 1⟩ (by decide) (Or.inr (by decide))
  exact h

/-- C10: handling a rename never touches any of the four metrics — every
successful `handle_rename` returns the metrics argument unchanged — and in
the branch that inserts a fresh record at an untracked target, the store
grows by one record while the tracked-files gauge does not, so a gauge that
equalled the store size before the rename no longer does afterwards. -/
theorem handle_rename_metrics_frame (cfg : Config) (fs : Fs) (now : Int)
    (fromP toP : String) (st : Store) (log : List AuditEvent) (m : Metrics) :
    (∀ out, handle_rename cfg fs now fromP toP st log m = .ok out → out.2.2 = m) ∧
    (∀ e, Store.lookup st fromP = none → Store.lookup st toP = none →
      fs.find? toP = some e → e.isFile = true → e.readable = true →
      m.tracked_files = (st.length : Int) →
      ∃ st1 log1, handle_rename cfg fs now fromP toP st log m = .ok (st1, log1, m) ∧
        st1.length = st.length + 1 ∧ m.tracked_files ≠ (st1.length : Int)) := by
  constructor
  · exact fun out h => handle_rename_metrics_unchanged h
  · intro e hfrom hto hfind hf hr hgauge
    have hren : handle_rename cfg fs now fromP toP st log m =
        .ok (Store.insertOrReplace st
               { path := toP, hash := digestOf cfg e.content,
                 size := e.content.length, mtime := e.mtime },
             log ++ [{ ts := now, kind := "rename", path := toP, old_path := some fromP }],
             m) := handle_rename_fresh hfrom hfind hf hr
    have hins := insertOrReplace_of_lookup_none
      (r := { path := toP, hash := digestOf cfg e.content,
              size := e.content.length, mtime := e.mtime }) hto
    rw [hins] at hren
    refine ⟨st ++ [{ path := toP, hash := digestOf cfg e.content,
                     size := e.content.length, mtime := e.mtime }],
            log ++ [{ ts := now, kind := "rename", path := toP, old_path := some fromP }],
            hren, by simp, ?_⟩
    rw [hgauge]
    simp only [List.length_append, List.length_cons, List.length_nil]
    push_cast
    omega

/-- Witness for C10: a fresh-insert rename against an empty store with the
gauge seeded to the store size. -/
theorem handle_rename_metrics_frame_witness :
    ∃ st1 log1,
      handle_rename ⟨"blake3", 250, fun _ => false⟩ ⟨[⟨"/b", true, [1], 2, true⟩]⟩ 0 "/a" "/b"
        [] [] ⟨0, 0, 0, 0⟩ = .ok (st1, log1, ⟨0, 0, 0, 0⟩) ∧
      st1.length = ([] : Store).length + 1 ∧ (0 : Int) ≠ (st1.length : Int) := by
  have h := (handle_rename_metrics_frame ⟨"blake3", 250, fun _ => false⟩
      ⟨[⟨"/b", true, [1], 2, true⟩]⟩ 0 "/a" "/b" [] [] ⟨0, 0, 0, 0⟩).2
      ⟨"/b", true, [1], 2, true⟩ rfl rfl (by decide) rfl rfl (by decide)
  exact h

/-! ## The reconciliation scanner's two passes -/

theorem scan_missing_spec (now : Int) (known : List String) :
    ∀ (recs : List FileRecord) (evts : List AuditEvent) (miss : Nat),
    scan_missing now known recs evts miss =
      (evts ++ (recs.filter (fun r => !known.contains r.path)).map
         (fun r => { ts := now, kind := "missing", path := r.path }),
       miss + (recs.filter (fun r => !known.contains r.path)).length) := by
  intro recs
  induction recs with
  | nil => intro evts miss; simp [scan_missing]
  | cons r rest ih =>
    intro evts miss
    by_cases hm : r.path ∈ known
    · have hc : known.contains r.path = true := by simpa using hm
      have hstep : scan_missing now known (r :: rest) evts miss
          = scan_missing now known rest evts miss := by
        simp [scan_missing, hm]
      rw [hstep, ih]
      simp [List.filter_cons, hm]
    · have hc : known.contains r.path = false := by simpa using hm
      have hstep : scan_missing now known (r :: rest) evts miss
          = scan_missing now known rest
              (evts ++ [{ ts := now, kind := "missing", path := r.path }]) (miss + 1) := by
        simp [scan_missing, hm]
      rw [hstep, ih, Prod.mk.injEq]
      constructor
      · simp [List.filter_cons, hm, List.append_assoc]
      · simp [List.filter_cons, hm]
        omega

theorem scan_walk_ok (cfg : Config) (fs : Fs) (st : Store) (now : Int) :
    ∀ (l : List FsEntry) (known : List String) (evts : List AuditEvent) (a c : Nat),
    (∀ e ∈ l, fs.find? e.path = some e) →
    (∀ e ∈ l, e.isFile = true → is_excluded cfg e.path = false → e.readable = true) →
    scan_walk cfg fs st now l known evts a c =
      .ok (known ++ seenPaths cfg l, evts ++ specWalkEvents cfg st now l,
           a + addedOfWalk cfg st l, c + changedOfWalk cfg st l) := by
  intro l
  induction l with
  | nil =>
    intro known evts a c _ _
    simp [scan_walk, seenPaths, specWalkEvents, addedOfWalk, changedOfWalk, walkL]
  | cons e rest ih =>
    intro known evts a c hfind hread
    have hfe := hfind e (List.mem_cons_self e rest)
    have hfr : ∀ x ∈ rest, fs.find? x.path = some x :=
      fun x hx => hfind x (List.mem_cons_of_mem e hx)
    have hrr : ∀ x ∈ rest, x.isFile = true → is_excluded cfg x.path = false → x.readable = true :=
      fun x hx => hread x (List.mem_cons_of_mem e hx)
    cases hf : e.isFile with
    | false =>
      have hskip : walkL cfg (e :: rest) = walkL cfg rest := by
        simp [walkL, List.filter_cons, hf]
      have hstep : scan_walk cfg fs st now (e :: rest) known evts a c
          = scan_walk cfg fs st now rest known evts a c := by
        simp [scan_walk, hf]
      rw [hstep, ih known evts a c hfr hrr]
      simp [seenPaths, specWalkEvents, addedOfWalk, changedOfWalk, hskip]
    | true =>
      cases hx : is_excluded cfg e.path with
      | true =>
        have hskip : walkL cfg (e :: rest) = walkL cfg rest := by
          simp [walkL, List.filter_cons, hf, hx]
        have hstep : scan_walk cfg fs st now (e :: rest) known evts a c
            = scan_walk cfg fs st now rest known evts a c := by
          simp [scan_walk, hf, hx]
        rw [hstep, ih known evts a c hfr hrr]
        simp [seenPaths, specWalkEvents, addedOfWalk, changedOfWalk, hskip]
      | false =>
        have hrd : e.readable = true := hread e (List.mem_cons_self e rest) hf hx
        have hhm : hash_meta cfg fs e.path
            = .ok (digestOf cfg e.content, e.content.length, e.mtime) := by
          rw [hash_meta_found hfe, hash_metaEntry_readable cfg hrd]
        have hkeep : walkL cfg (e :: rest) = e :: walkL cfg rest := by
          simp [walkL, List.filter_cons, hf, hx]
        rcases hlk : Store.lookup st e.path with _ | r
        · have hstep : scan_walk cfg fs st now (e :: rest) known evts a c
              = scan_walk cfg fs st now rest (known ++ [e.path])
                  (evts ++ [{ ts := now, kind := "added", path := e.path,
                              new_hash := some (digestOf cfg e.content),
                              size := some e.content.length }])
                  (a + 1) c := by
            simp [scan_walk, hf, hx, hhm, normalize_path, hlk]
          rw [hstep, ih _ _ _ _ hfr hrr]
          simp only [Except.ok.injEq, Prod.mk.injEq, seenPaths, specWalkEvents, addedOfWalk,
                     changedOfWalk, changedEntry, hkeep, List.map_cons, List.filterMap_cons,
                     List.filter_cons, hlk, Option.isNone_none, if_true, List.length_cons]
          refine ⟨by simp [List.append_assoc], ⟨by simp [List.append_assoc], by omega, by simp⟩⟩
        · cases hch : (r.hash != digestOf cfg e.content || r.size != e.content.length
              || r.mtime != e.mtime) with
          | true =>
            have hstep : scan_walk cfg fs st now (e :: rest) known evts a c
                = scan_walk cfg fs st now rest (known ++ [e.path])
                    (evts ++ [{ ts := now, kind := "changed", path := e.path,
                                old_hash := some r.hash,
                                new_hash := some (digestOf cfg e.content),
                                size := some e.content.length }])
                    a (c + 1) := by
              simp [scan_walk, hf, hx, hhm, normalize_path, hlk, hch]
            rw [hstep, ih _ _ _ _ hfr hrr]
            simp only [Except.ok.injEq, Prod.mk.injEq, seenPaths, specWalkEvents, addedOfWalk,
                       changedOfWalk, changedEntry, hkeep, List.map_cons, List.filterMap_cons,
                       List.filter_cons, hlk, hch, Option.isNone_some, if_true, if_false,
                       List.length_cons]
            refine ⟨by simp [List.append_assoc], ⟨by simp [List.append_assoc, hch], by simp, by omega⟩⟩
          | false =>
            have hstep : scan_walk cfg fs st now (e :: rest) known evts a c
                = scan_walk cfg fs st now rest (known ++ [e.path]) evts a c := by
              simp [scan_walk, hf, hx, hhm, normalize_path, hlk, hch]
            rw [hstep, ih _ _ _ _ hfr hrr]
            simp only [Except.ok.injEq, Prod.mk.injEq, seenPaths, specWalkEvents, addedOfWalk,
                       changedOfWalk, changedEntry, hkeep, List.map_cons, List.filterMap_cons,
                       List.filter_cons, hlk, hch, Option.isNone_some]
            refine ⟨by simp [List.append_assoc], ⟨by simp [hch], by simp, by simp [hch]⟩⟩

/-! ## The rebuild transaction -/

theorem Store.lookup_eq_none_of {st : Store} {p : String} (h : ∀ r ∈ st, r.path ≠ p) :
    Store.lookup st p = none :=
  List.find?_eq_none.mpr (fun r hr => by simpa using h r hr)

theorem build_tx_ok_characterize (cfg : Config) (fs : Fs) :
    ∀ (l : List FsEntry) (st : Store) (n : Nat) (st2 : Store) (n2 : Nat),
    (∀ e ∈ l, fs.find? e.path = some e) →
    (l.map (fun e => e.path)).Nodup →
    (∀ e ∈ l, e.isFile = true → is_excluded cfg e.path = false → ∀ r ∈ st, r.path ≠ e.path) →
    build_tx cfg fs l st n = .ok (st2, n2) →
    st2 = st ++ (walkL cfg l).map (mkRecord cfg) ∧ n2 = n + (walkL cfg l).length := by
  intro l
  induction l with
  | nil =>
    intro st n st2 n2 _ _ _ h
    simp only [build_tx, Except.ok.injEq, Prod.mk.injEq] at h
    simp [walkL, ← h.1, ← h.2]
  | cons e rest ih =>
    intro st n st2 n2 hfind hnd hdisj h
    have hfe := hfind e (List.mem_cons_self e rest)
    have hfr : ∀ x ∈ rest, fs.find? x.path = some x :=
      fun x hx => hfind x (List.mem_cons_of_mem e hx)
    simp only [List.map_cons, List.nodup_cons, List.mem_map] at hnd
    cases hf : e.isFile with
    | false =>
      have hstep : build_tx cfg fs (e :: rest) st n = build_tx cfg fs rest st n := by
        simp [build_tx, hf]
      rw [hstep] at h
      have hdr : ∀ x ∈ rest, x.isFile = true → is_excluded cfg x.path = false →
          ∀ r ∈ st, r.path ≠ x.path :=
        fun x hx => hdisj x (List.mem_cons_of_mem e hx)
      have := ih st n st2 n2 hfr hnd.2 hdr h
      simpa [walkL, List.filter_cons, hf] using this
    | true =>
      cases hx : is_excluded cfg e.path with
      | true =>
        have hstep : build_tx cfg fs (e :: rest) st n = build_tx cfg fs rest st n := by
          simp [build_tx, hf, hx]
        rw [hstep] at h
        have hdr : ∀ x ∈ rest, x.isFile = true → is_excluded cfg x.path = false →
            ∀ r ∈ st, r.path ≠ x.path :=
          fun x hx2 => hdisj x (List.mem_cons_of_mem e hx2)
        have := ih st n st2 n2 hfr hnd.2 hdr h
        simpa [walkL, List.filter_cons, hf, hx] using this
      | false =>
        cases hrd : e.readable with
        | false =>
          have hstep : build_tx cfg fs (e :: rest) st n = .error () := by
            simp [build_tx, hf, hx, hash_meta_found hfe, hash_metaEntry_unreadable cfg hrd]
          rw [hstep] at h
          cases h
        | true =>
          have hdisj_e := hdisj e (List.mem_cons_self e rest) hf hx
          have hlknone : Store.lookup st (mkRecord cfg e).path = none :=
            Store.lookup_eq_none_of (by simpa [mkRecord, normalize_path] using hdisj_e)
          have hior : Store.insertOrReplace st (mkRecord cfg e) = st ++ [mkRecord cfg e] :=
            insertOrReplace_of_lookup_none hlknone
          have hstep : build_tx cfg fs (e :: rest) st n
              = build_tx cfg fs rest (st ++ [mkRecord cfg e]) (n + 1) := by
            simp only [build_tx, hf, Bool.not_true, Bool.false_eq_true, if_false, hx,
                       hash_meta_found hfe, hash_metaEntry_readable cfg hrd]
            rw [show ({ path := normalize_path e.path, hash := digestOf cfg e.content,
                        size := e.content.length, mtime := e.mtime } : FileRecord)
                  = mkRecord cfg e from rfl, hior]
          rw [hstep] at h
          have hdr : ∀ x ∈ rest, x.isFile = true → is_excluded cfg x.path = false →
              ∀ r ∈ st ++ [mkRecord cfg e], r.path ≠ x.path := by
            intro x hx2 hxf hxe r hr
            rcases List.mem_append.mp hr with hin | hone
            · exact hdisj x (List.mem_cons_of_mem e hx2) hxf hxe r hin
            · have : r = mkRecord cfg e := by simpa using hone
              subst this
              simp only [mkRecord, normalize_path]
              intro hcontra
              exact hnd.1 ⟨x, hx2, hcontra.symm⟩
          have hrec := ih (st ++ [mkRecord cfg e]) (n + 1) st2 n2 hfr hnd.2 hdr h
          have hkeep : walkL cfg (e :: rest) = e :: walkL cfg rest := by
            simp [walkL, List.filter_cons, hf, hx]
          refine ⟨?_, ?_⟩
          · rw [hrec.1, hkeep]
            simp [List.append_assoc]
          · rw [hrec.2, hkeep]
            simp only [List.length_cons]
            omega

theorem build_tx_error (cfg : Config) (fs : Fs) :
    ∀ (l : List FsEntry) (st : Store) (n : Nat),
    (∀ e ∈ l, fs.find? e.path = some e) →
    (∃ e ∈ l, e.isFile = true ∧ is_excluded cfg e.path = false ∧ e.readable = false) →
    build_tx cfg fs l st n = .error () := by
  intro l
  induction l with
  | nil =>
    intro st n _ hex
    simp at hex
  | cons e rest ih =>
    intro st n hfind hex
    have hfe := hfind e (List.mem_cons_self e rest)
    have hfr : ∀ x ∈ rest, fs.find? x.path = some x :=
      fun x hx => hfind x (List.mem_cons_of_mem e hx)
    rcases hex with ⟨w, hw, hwf, hwx, hwr⟩
    rcases List.mem_cons.mp hw with rfl | hwr2
    · simp [build_tx, hwf, hwx, hash_meta_found hfe, hash_metaEntry_unreadable cfg hwr]
    · have hexr : ∃ x ∈ rest, x.isFile = true ∧ is_excluded cfg x.path = false
          ∧ x.readable = false := ⟨w, hwr2, hwf, hwx, hwr⟩
      cases hf : e.isFile with
      | false =>
        have hstep : build_tx cfg fs (e :: rest) st n = build_tx cfg fs rest st n := by
          simp [build_tx, hf]
        rw [hstep]
        exact ih st n hfr hexr
      | true =>
        cases hx : is_excluded cfg e.path with
        | true =>
          have hstep : build_tx cfg fs (e :: rest) st n = build_tx cfg fs rest st n := by
            simp [build_tx, hf, hx]
          rw [hstep]
          exact ih st n hfr hexr
        | false =>
          cases hrd : e.readable with
          | false =>
            simp [build_tx, hf, hx, hash_meta_found hfe, hash_metaEntry_unreadable cfg hrd]
          | true =>
            have hstep : build_tx cfg fs (e :: rest) st n
                = build_tx cfg fs rest
                    (Store.insertOrReplace st
                      { path := normalize_path e.path, hash := digestOf cfg e.content,
                        size := e.content.length, mtime := e.mtime }) (n + 1) := by
              simp [build_tx, hf, hx, hash_meta_found hfe, hash_metaEntry_readable cfg hrd]
            rw [hstep]
            exact ih _ _ hfr hexr

theorem scan_walk_error (cfg : Config) (fs : Fs) (st : Store) (now : Int) :
    ∀ (l : List FsEntry) (known : List String) (evts : List AuditEvent) (a c : Nat),
    (∀ e ∈ l, fs.find? e.path = some e) →
    (∃ e ∈ l, e.isFile = true ∧ is_excluded cfg e.path = false ∧ e.readable = false) →
    scan_walk cfg fs st now l known evts a c = .error () := by
  intro l
  induction l with
  | nil =>
    intro known evts a c _ hex
    simp at hex
  | cons e rest ih =>
    intro known evts a c hfind hex
    have hfe := hfind e (List.mem_cons_self e rest)
    have hfr : ∀ x ∈ rest, fs.find? x.path = some x :=
      fun x hx => hfind x (List.mem_cons_of_mem e hx)
    rcases hex with ⟨w, hw, hwf, hwx, hwr⟩
    rcases List.mem_cons.mp hw with rfl | hwr2
    · simp [scan_walk, hwf, hwx, hash_meta_found hfe, hash_metaEntry_unreadable cfg hwr]
    · have hexr : ∃ x ∈ rest, x.isFile = true ∧ is_excluded cfg x.path = false
          ∧ x.readable = false := ⟨w, hwr2, hwf, hwx, hwr⟩
      cases hf : e.isFile with
      | false =>
        have hstep : scan_walk cfg fs st now (e :: rest) known evts a c
            = scan_walk cfg fs st now rest known evts a c := by
          simp [scan_walk, hf]
        rw [hstep]
        exact ih _ _ _ _ hfr hexr
      | true =>
        cases hx : is_excluded cfg e.path with
        | true =>
          have hstep : scan_walk cfg fs st now (e :: rest) known evts a c
              = scan_walk cfg fs st now rest known evts a c := by
            simp [scan_walk, hf, hx]
          rw [hstep]
          exact ih _ _ _ _ hfr hexr
        | false =>
          cases hrd : e.readable with
          | false =>
            simp [scan_walk, hf, hx, hash_meta_found hfe, hash_metaEntry_unreadable cfg hrd]
          | true =>
            have hhm : hash_meta cfg fs e.path
                = .ok (digestOf cfg e.content, e.content.length, e.mtime) := by
              rw [hash_meta_found hfe, hash_metaEntry_readable cfg hrd]
            rcases hlk : Store.lookup st e.path with _ | r
            · have hstep : scan_walk cfg fs st now (e :: rest) known evts a c
                  = scan_walk cfg fs st now rest (known ++ [e.path])
                      (evts ++ [{ ts := now, kind := "added", path := e.path,
                                  new_hash := some (digestOf cfg e.content),
                                  size := some e.content.length }]) (a + 1) c := by
                simp [scan_walk, hf, hx, hhm, normalize_path, hlk]
              rw [hstep]
              exact ih _ _ _ _ hfr hexr
            · cases hch : (r.hash != digestOf cfg e.content || r.size != e.content.length
                  || r.mtime != e.mtime) with
              | true =>
                have hstep : scan_walk cfg fs st now (e :: rest) known evts a c
                    = scan_walk cfg fs st now rest (known ++ [e.path])
                        (evts ++ [{ ts := now, kind := "changed", path := e.path,
                                    old_hash := some r.hash,
                                    new_hash := some (digestOf cfg e.content),
                                    size := some e.content.length }]) a (c + 1) := by
                  simp [scan_walk, hf, hx, hhm, normalize_path, hlk, hch]
                rw [hstep]
                exact ih _ _ _ _ hfr hexr
              | false =>
                have hstep : scan_walk cfg fs st now (e :: rest) known evts a c
                    = scan_walk cfg fs st now rest (known ++ [e.path]) evts a c := by
                  simp [scan_walk, hf, hx, hhm, normalize_path, hlk, hch]
                rw [hstep]
                exact ih _ _ _ _ hfr hexr

/-! ## Independence of the scanner from the wall clock, up to timestamps -/

theorem map_stripTs_append_single (evts1 evts2 : List AuditEvent) (k p : String)
    (op oh nh : Option String) (sz : Option Nat) (t1 t2 : Int)
    (h : evts2.map stripTs = evts1.map stripTs) :
    (evts2 ++ ([{ ts := t2, kind := k, path := p, old_path := op, old_hash := oh,
                  new_hash := nh, size := sz }] : List AuditEvent)).map stripTs
      = (evts1 ++ ([{ ts := t1, kind := k, path := p, old_path := op, old_hash := oh,
                      new_hash := nh, size := sz }] : List AuditEvent)).map stripTs := by
  simp [List.map_append, h, stripTs]

theorem scan_walk_retime (cfg : Config) (fs : Fs) (st : Store) (n1 n2 : Int) :
    ∀ (l : List FsEntry) (known : List String) (evts1 evts2 : List AuditEvent) (a c : Nat),
    evts2.map stripTs = evts1.map stripTs →
    stripWalk (scan_walk cfg fs st n2 l known evts2 a c)
      = stripWalk (scan_walk cfg fs st n1 l known evts1 a c) := by
  intro l
  induction l with
  | nil =>
    intro known evts1 evts2 a c h
    simp [scan_walk, stripWalk, h]
  | cons e rest ih =>
    intro known evts1 evts2 a c h
    cases hf : e.isFile with
    | false => simpa [scan_walk, hf] using ih known evts1 evts2 a c h
    | true =>
      cases hx : is_excluded cfg e.path with
      | true => simpa [scan_walk, hf, hx] using ih known evts1 evts2 a c h
      | false =>
        rcases hhm : hash_meta cfg fs e.path with u | ⟨hdg, hsz, hmt⟩
        · simp [scan_walk, hf, hx, hhm, stripWalk]
        · rcases hlk : Store.lookup st (normalize_path e.path) with _ | r
          · have h2 := map_stripTs_append_single evts1 evts2 "added" (normalize_path e.path)
              none none (some hdg) (some hsz) n1 n2 h
            simpa [scan_walk, hf, hx, hhm, hlk] using
              ih (known ++ [normalize_path e.path]) _ _ (a + 1) c h2
          · cases hch : (r.hash != hdg || r.size != hsz || r.mtime != hmt) with
            | true =>
              have h2 := map_stripTs_append_single evts1 evts2 "changed" (normalize_path e.path)
                none (some r.hash) (some hdg) (some hsz) n1 n2 h
              simpa [scan_walk, hf, hx, hhm, hlk, hch] using
                ih (known ++ [normalize_path e.path]) _ _ a (c + 1) h2
            | false =>
              simpa [scan_walk, hf, hx, hhm, hlk, hch] using
                ih (known ++ [normalize_path e.path]) evts1 evts2 a c h

/-- C1: build_baseline is all-or-nothing.  For every invocation on a
well-formed walk, the durable store after the call is either exactly the
complete set it held before or exactly the new complete set — one record
per non-excluded regular file found under the roots — with no intermediate
state; on success it is the new set (with the reported count the number of
walked files), and on error it is exactly the old set. -/
theorem build_baseline_atomic (cfg : Config) (fs : Fs) (st : Store) (hwf : fs.wf) :
    ((build_baseline cfg fs st).2 = st ∨
      (build_baseline cfg fs st).2 = (walkFiles cfg fs).map (mkRecord cfg)) ∧
    (∀ n, (build_baseline cfg fs st).1 = .ok n →
      (build_baseline cfg fs st).2 = (walkFiles cfg fs).map (mkRecord cfg) ∧
      n = (walkFiles cfg fs).length) ∧
    ((build_baseline cfg fs st).1 = .error () → (build_baseline cfg fs st).2 = st) := by
  have hfind : ∀ e ∈ fs.entries, fs.find? e.path = some e :=
    fun e he => Fs.find?_of_wf fs hwf he
  rcases hbt : build_tx cfg fs fs.entries [] 0 with u | ⟨ns, n0⟩
  · refine ⟨Or.inl ?_, ?_, ?_⟩
    · simp [build_baseline, hbt]
    · intro n h
      simp [build_baseline, hbt] at h
    · intro _
      simp [build_baseline, hbt]
  · have hch := build_tx_ok_characterize cfg fs fs.entries [] 0 ns n0 hfind (by exact hwf)
      (fun e _ _ _ r hr => absurd hr (List.not_mem_nil r)) hbt
    refine ⟨Or.inr ?_, ?_, ?_⟩
    · simp only [build_baseline, hbt]
      rw [hch.1]
      simp [walkFiles]
    · intro n h
      simp only [build_baseline, hbt, Except.ok.injEq] at h
      subst h
      constructor
      · simp only [build_baseline, hbt]
        rw [hch.1]
        simp [walkFiles]
      · rw [hch.2]
        simp [walkFiles]
    · intro h
      simp [build_baseline, hbt] at h

/-- Witness for C1: a successful rebuild of a one-file tree over a stale
one-record store replaces it with exactly the walked file's record. -/
theorem build_baseline_atomic_witness :
    (build_baseline ⟨"blake3", 250, fun _ => false⟩ ⟨[⟨"/a", true, [1], 2, true⟩]⟩
        [⟨"/z", "h", 1, 1⟩]).2
      = (walkFiles ⟨"blake3", 250, fun _ => false⟩ ⟨[⟨"/a", true, [1], 2, true⟩]⟩).map
          (mkRecord ⟨"blake3", 250, fun _ => false⟩) ∧
    1 = (walkFiles ⟨"blake3", 250, fun _ => false⟩ ⟨[⟨"/a", true, [1], 2, true⟩]⟩).length :=
  (build_baseline_atomic ⟨"blake3", 250, fun _ => false⟩ ⟨[⟨"/a", true, [1], 2, true⟩]⟩
      [⟨"/z", "h", 1, 1⟩] (by decide)).2.1 1 (by decide)

/-- C3: the reconciliation scanner classifies every non-excluded regular
file absent from the store as added, every one present with differing
hash, size or modifiedAt as changed (its event carrying old and new hash),
emits nothing for identical files, classifies every store record whose path
was not seen as missing, and reports counts equal to the sizes of those
three sets. -/
theorem scan_diff_classification (cfg : Config) (fs : Fs) (st : Store) (now : Int)
    (hwf : fs.wf) (hread : allWalkReadable cfg fs) :
    scan_diff cfg fs st now =
      (.ok { events := specWalkEvents cfg st now fs.entries
                        ++ specMissingEvents now cfg fs.entries st,
             added := addedOfWalk cfg st fs.entries,
             changed := changedOfWalk cfg st fs.entries,
             missing := (missingOfStore cfg fs.entries st).length }, st) := by
  have hfind : ∀ e ∈ fs.entries, fs.find? e.path = some e :=
    fun e he => Fs.find?_of_wf fs hwf he
  have hw := scan_walk_ok cfg fs st now fs.entries [] [] 0 0 hfind (by exact hread)
  simp only [List.nil_append, Nat.zero_add] at hw
  simp only [scan_diff, hw, scan_missing_spec]
  simp [specMissingEvents, missingOfStore, seenPaths]

/-- Witness for C3: a scan over one new file, one unchanged file and one
modified file against a store that also holds one vanished record reports
exactly one added, one changed and one missing. -/
theorem scan_diff_classification_witness :
    scan_diff ⟨"blake3", 250, fun _ => false⟩
        ⟨[⟨"/new", true, [1], 1, true⟩, ⟨"/same", true, [2], 2, true⟩,
          ⟨"/chg", true, [3], 3, true⟩]⟩
        [⟨"/same", blake3Hex [2], 1, 2⟩, ⟨"/chg", "old", 9, 9⟩, ⟨"/gone", "g", 1, 1⟩] 7
      = (.ok { events := [{ ts := 7, kind := "added", path := "/new",
                            new_hash := some (blake3Hex [1]), size := some 1 },
                          { ts := 7, kind := "changed", path := "/chg",
                            old_hash := some "old", new_hash := some (blake3Hex [3]),
                            size := some 1 },
                          { ts := 7, kind := "missing", path := "/gone" }],
               added := 1, changed := 1, missing := 1 },
         [⟨"/same", blake3Hex [2], 1, 2⟩, ⟨"/chg", "old", 9, 9⟩, ⟨"/gone", "g", 1, 1⟩]) := by
  rw [scan_diff_classification ⟨"blake3", 250, fun _ => false⟩
      ⟨[⟨"/new", true, [1], 1, true⟩, ⟨"/same", true, [2], 2, true⟩,
        ⟨"/chg", true, [3], 3, true⟩]⟩
      [⟨"/same", blake3Hex [2], 1, 2⟩, ⟨"/chg", "old", 9, 9⟩, ⟨"/gone", "g", 1, 1⟩] 7
      (by decide) (by decide)]
  rfl

/-- C4 counterexample: two consecutive scans of the same unchanged
filesystem and baseline at different wall-clock instants produce different
jsonl outputs — the events differ in their timestamps — refuting literal
output identity. -/
theorem scan_diff_not_identical_cex :
    (scan_diff ⟨"blake3", 250, fun _ => false⟩ ⟨[⟨"/a", true, [1], 5, true⟩]⟩ [] 0).1
      ≠ (scan_diff ⟨"blake3", 250, fun _ => false⟩ ⟨[⟨"/a", true, [1], 5, true⟩]⟩ [] 1).1 := by
  decide

/-- C4 as amended: scan_diff performs zero mutation of the baseline store
(the record set after a scan is exactly the one before, whether the scan
completes or aborts), and two invocations against an unchanged filesystem
and unchanged baseline produce identical classification counts and
identical outputs apart from the wall-clock timestamps carried inside the
emitted events. -/
theorem scan_diff_readonly_retimed (cfg : Config) (fs : Fs) (st : Store) (now1 now2 : Int) :
    (scan_diff cfg fs st now1).2 = st ∧
    stripScan (scan_diff cfg fs st now1).1 = stripScan (scan_diff cfg fs st now2).1 := by
  constructor
  · rcases h : scan_walk cfg fs st now1 fs.entries [] [] 0 0 with u | ⟨k, ev, a, c⟩ <;>
      simp [scan_diff, h]
  · have hW := scan_walk_retime cfg fs st now2 now1 fs.entries [] [] [] 0 0 rfl
    rcases h1 : scan_walk cfg fs st now1 fs.entries [] [] 0 0 with u1 | ⟨k1, ev1, a1, c1⟩ <;>
      rcases h2 : scan_walk cfg fs st now2 fs.entries [] [] 0 0 with u2 | ⟨k2, ev2, a2, c2⟩ <;>
      rw [h1, h2] at hW
    · simp [scan_diff, h1, h2, stripScan]
    · simp [stripWalk] at hW
    · simp [stripWalk] at hW
    · simp only [stripWalk, Except.ok.injEq, Prod.mk.injEq] at hW
      obtain ⟨hk, hev, ha, hc⟩ := hW
      subst hk
      subst ha
      subst hc
      simp [scan_diff, h1, h2, scan_missing_spec, stripScan, List.map_append,
            List.map_map, hev, stripTs, Function.comp]

/-- C8 counterexample: with one unreadable (but stat-able) regular file in
the walk, the hashing failure propagates: scan_diff returns an error — the
summary line at the end of the function is never reached — and
build_baseline returns an error rather than skipping the file, its
transaction rolling back to the prior record set. -/
theorem hash_error_fatal_cex :
    (scan_diff ⟨"blake3", 250, fun _ => false⟩ ⟨[⟨"/u", true, [0], 0, false⟩]⟩ [] 0).1
        = .error () ∧
    (build_baseline ⟨"blake3", 250, fun _ => false⟩ ⟨[⟨"/u", true, [0], 0, false⟩]⟩
        [⟨"/x", "h", 1, 1⟩]).1 = .error () ∧
    (build_baseline ⟨"blake3", 250, fun _ => false⟩ ⟨[⟨"/u", true, [0], 0, false⟩]⟩
        [⟨"/x", "h", 1, 1⟩]).2 = [⟨"/x", "h", 1, 1⟩] := by
  exact ⟨rfl, rfl, rfl⟩

/-- C8 as amended: a failing metadata stat makes the walk skip the entry
(it does not stat as a regular file), but a hashing failure on a stat-able
regular file is fatal to the invocation in scan_diff (the error propagates
and no summary is printed, the store left untouched) and in build_baseline
(the transaction rolls back to the prior set); only the live watch loop
logs and skips a per-event hashing failure, leaving store, audit log and
metrics unchanged and moving on. -/
theorem hash_error_propagation (cfg : Config) (fs : Fs) (st : Store) (now : Int)
    (hwf : fs.wf) :
    ((∃ e ∈ fs.entries, e.isFile = true ∧ is_excluded cfg e.path = false
        ∧ e.readable = false) →
      (scan_diff cfg fs st now).1 = .error () ∧ (scan_diff cfg fs st now).2 = st ∧
      (build_baseline cfg fs st).1 = .error () ∧ (build_baseline cfg fs st).2 = st) ∧
    (∀ p e s, is_excluded cfg p = false → lookupLast s.last_evt p = none →
      fs.find? p = some e → e.isFile = true → e.readable = false →
      processPathEvent cfg fs now false p s
        = { s with last_evt := insertLast s.last_evt p now }) := by
  have hfind : ∀ x ∈ fs.entries, fs.find? x.path = some x :=
    fun x hx => Fs.find?_of_wf fs hwf hx
  constructor
  · intro hex
    have hsw := scan_walk_error cfg fs st now fs.entries [] [] 0 0 hfind hex
    have hbt := build_tx_error cfg fs fs.entries [] 0 hfind hex
    exact ⟨by simp [scan_diff, hsw], by simp [scan_diff, hsw],
           by simp [build_baseline, hbt], by simp [build_baseline, hbt]⟩
  · intro p e s hx hlast hfind2 hf hr
    have hup : handle_upsert cfg fs now p s.store s.log s.metrics = .error () :=
      handle_upsert_unreadable hfind2 hf hr
    have hdb : debounce_hit s.last_evt p (cfg.debounce_ms : Int) now
        = (false, insertLast s.last_evt p now) := by
      simp [debounce_hit, normalize_path, hlast]
    simp [processPathEvent, hx, hdb, applyPathEvent, hup]

/-- Witness for C8 as amended, at a concrete unreadable file. -/
theorem hash_error_propagation_witness :
    (scan_diff ⟨"blake3", 250, fun _ => false⟩ ⟨[⟨"/u", true, [0], 0, false⟩]⟩
        [⟨"/x", "h", 1, 1⟩] 0).1 = .error () ∧
    (scan_diff ⟨"blake3", 250, fun _ => false⟩ ⟨[⟨"/u", true, [0], 0, false⟩]⟩
        [⟨"/x", "h", 1, 1⟩] 0).2 = [⟨"/x", "h", 1, 1⟩] ∧
    (build_baseline ⟨"blake3", 250, fun _ => false⟩ ⟨[⟨"/u", true, [0], 0, false⟩]⟩
        [⟨"/x", "h", 1, 1⟩]).1 = .error () ∧
    (build_baseline ⟨"blake3", 250, fun _ => false⟩ ⟨[⟨"/u", true, [0], 0, false⟩]⟩
        [⟨"/x", "h", 1, 1⟩]).2 = [⟨"/x", "h", 1, 1⟩] :=
  (hash_error_propagation ⟨"blake3", 250, fun _ => false⟩ ⟨[⟨"/u", true, [0], 0, false⟩]⟩
      [⟨"/x", "h", 1, 1⟩] 0 (by decide)).1
    ⟨⟨"/u", true, [0], 0, false⟩, by decide, rfl, rfl, rfl⟩

/-! ## Debounce behaviour of the watch dispatcher -/

theorem debounce_hit_true_eq (last : List (String × Int)) (p : String) (w now : Int)
    (h : (debounce_hit last p w now).1 = true) : (debounce_hit last p w now).2 = last := by
  rcases hl : lookupLast last (normalize_path p) with _ | prev
  · simp [debounce_hit, hl] at h
  · by_cases hw : now - prev ≤ w
    · simp [debounce_hit, hl, hw]
    · simp [debounce_hit, hl, hw] at h

theorem debounce_hit_false_eq (last : List (String × Int)) (p : String) (w now : Int)
    (h : (debounce_hit last p w now).1 = false) :
    (debounce_hit last p w now).2 = insertLast last (normalize_path p) now := by
  rcases hl : lookupLast last (normalize_path p) with _ | prev
  · simp [debounce_hit, hl]
  · by_cases hw : now - prev ≤ w
    · simp [debounce_hit, hl, hw] at h
    · simp [debounce_hit, hl, hw]

theorem processPathEvent_hit (cfg : Config) (fs : Fs) (now : Int) (isRemove : Bool)
    (p : String) (s : WatchState) (prev : Int)
    (hx : is_excluded cfg p = false)
    (hl : lookupLast s.last_evt p = some prev)
    (hw : now - prev ≤ (cfg.debounce_ms : Int)) :
    processPathEvent cfg fs now isRemove p s = s := by
  have hdb : debounce_hit s.last_evt p (cfg.debounce_ms : Int) now = (true, s.last_evt) := by
    simp [debounce_hit, normalize_path, hl, hw]
  simp [processPathEvent, hx, hdb]

theorem processPathEvent_miss_create (cfg : Config) (fs : Fs) (t1 : Int) (p : String)
    (s : WatchState) (e : FsEntry)
    (hx : is_excluded cfg p = false)
    (hlast : lookupLast s.last_evt p = none)
    (hfind : fs.find? p = some e) (hf : e.isFile = true) (hr : e.readable = true)
    (hlk : Store.lookup s.store p = none) :
    processPathEvent cfg fs t1 false p s =
      { store := s.store ++ [{ path := p, hash := digestOf cfg e.content,
                               size := e.content.length, mtime := e.mtime }],
        log := s.log ++ [{ ts := t1, kind := "create", path := p,
                           new_hash := some (digestOf cfg e.content),
                           size := some e.content.length }],
        metrics := { s.metrics with
                       created := s.metrics.created + 1,
                       tracked_files := s.metrics.tracked_files + 1 },
        last_evt := insertLast s.last_evt p t1 } := by
  have hdb : debounce_hit s.last_evt p (cfg.debounce_ms : Int) t1
      = (false, insertLast s.last_evt p t1) := by
    simp [debounce_hit, normalize_path, hlast]
  have hup : handle_upsert cfg fs t1 p s.store s.log s.metrics =
      .ok (s.store ++ [{ path := p, hash := digestOf cfg e.content,
                         size := e.content.length, mtime := e.mtime }],
           s.log ++ [{ ts := t1, kind := "create", path := p,
                       new_hash := some (digestOf cfg e.content),
                       size := some e.content.length }],
           { s.metrics with
               created := s.metrics.created + 1,
               tracked_files := s.metrics.tracked_files + 1 }) :=
    handle_upsert_create hfind hf hr hlk
  simp [processPathEvent, hx, hdb, applyPathEvent, hup]

/-- C5: the single-path debounce test.  A previous timestamp within the
window reports a hit without updating the stored timestamp, and the event
is fully suppressed: the dispatcher state (store, audit log, metrics,
debounce map) is returned unchanged.  Otherwise `now` is recorded as the
new timestamp and processing proceeds.  Consequently two live
notifications for the same path within one debounce window produce exactly
one processed upsert and one audit event. -/
theorem debounce_single_path (cfg : Config) (fs : Fs) :
    (∀ (last : List (String × Int)) (p : String) (window now prev : Int),
      lookupLast last p = some prev → now - prev ≤ window →
      debounce_hit last p window now = (true, last)) ∧
    (∀ (now : Int) (isRemove : Bool) (p : String) (s : WatchState) (prev : Int),
      is_excluded cfg p = false →
      lookupLast s.last_evt p = some prev → now - prev ≤ (cfg.debounce_ms : Int) →
      processPathEvent cfg fs now isRemove p s = s) ∧
    (∀ (last : List (String × Int)) (p : String) (window now : Int),
      (lookupLast last p = none ∨ ∃ prev, lookupLast last p = some prev ∧ window < now - prev) →
      debounce_hit last p window now = (false, insertLast last p now)) ∧
    (∀ (t1 t2 : Int) (p : String) (s : WatchState) (e : FsEntry),
      is_excluded cfg p = false → lookupLast s.last_evt p = none →
      fs.find? p = some e → e.isFile = true → e.readable = true →
      Store.lookup s.store p = none →
      t2 - t1 ≤ (cfg.debounce_ms : Int) →
      processPathEvent cfg fs t2 false p (processPathEvent cfg fs t1 false p s)
          = processPathEvent cfg fs t1 false p s ∧
      (processPathEvent cfg fs t1 false p s).log
          = s.log ++ [{ ts := t1, kind := "create", path := p,
                        new_hash := some (digestOf cfg e.content),
                        size := some e.content.length }] ∧
      (processPathEvent cfg fs t1 false p s).store
          = s.store ++ [{ path := p, hash := digestOf cfg e.content,
                          size := e.content.length, mtime := e.mtime }] ∧
      (processPathEvent cfg fs t1 false p s).metrics.created = s.metrics.created + 1) := by
  refine ⟨?_, ?_, ?_, ?_⟩
  · intro last p window now prev hl hw
    simp [debounce_hit, normalize_path, hl, hw]
  · intro now isRemove p s prev hx hl hw
    exact processPathEvent_hit cfg fs now isRemove p s prev hx hl hw
  · intro last p window now h
    rcases h with hl | ⟨prev, hl, hw⟩
    · simp [debounce_hit, normalize_path, hl]
    · simp [debounce_hit, normalize_path, hl, not_le.mpr hw]
  · intro t1 t2 p s e hx hlast hfind hf hr hlk hw
    have h1 := processPathEvent_miss_create cfg fs t1 p s e hx hlast hfind hf hr hlk
    refine ⟨?_, by rw [h1], by rw [h1], by rw [h1]⟩
    have hl1 : lookupLast (processPathEvent cfg fs t1 false p s).last_evt p = some t1 := by
      rw [h1]
      exact lookupLast_insertLast_self s.last_evt p t1
    exact processPathEvent_hit cfg fs t2 false p _ t1 hx hl1 hw

/-- Witness for C5: two create notifications for the same fresh path at
t = 100 and t = 300 within the 250 ms window produce one insert and one
create event, the second being fully suppressed. -/
theorem debounce_single_path_witness :
    processPathEvent ⟨"blake3", 250, fun _ => false⟩ ⟨[⟨"/a", true, [1], 2, true⟩]⟩ 300 false "/a"
        (processPathEvent ⟨"blake3", 250, fun _ => false⟩ ⟨[⟨"/a", true, [1], 2, true⟩]⟩
          100 false "/a" ⟨[], [], ⟨0, 0, 0, 0⟩, []⟩)
      = processPathEvent ⟨"blake3", 250, fun _ => false⟩ ⟨[⟨"/a", true, [1], 2, true⟩]⟩
          100 false "/a" ⟨[], [], ⟨0, 0, 0, 0⟩, []⟩ ∧
    (processPathEvent ⟨"blake3", 250, fun _ => false⟩ ⟨[⟨"/a", true, [1], 2, true⟩]⟩
        100 false "/a" ⟨[], [], ⟨0, 0, 0, 0⟩, []⟩).log
      = [] ++ [{ ts := 100, kind := "create", path := "/a",
                 new_hash := some (digestOf ⟨"blake3", 250, fun _ => false⟩ [1]),
                 size := some 1 }] ∧
    (processPathEvent ⟨"blake3", 250, fun _ => false⟩ ⟨[⟨"/a", true, [1], 2, true⟩]⟩
        100 false "/a" ⟨[], [], ⟨0, 0, 0, 0⟩, []⟩).store
      = [] ++ [{ path := "/a", hash := digestOf ⟨"blake3", 250, fun _ => false⟩ [1],
                 size := 1, mtime := 2 }] ∧
    (processPathEvent ⟨"blake3", 250, fun _ => false⟩ ⟨[⟨"/a", true, [1], 2, true⟩]⟩
        100 false "/a" ⟨[], [], ⟨0, 0, 0, 0⟩, []⟩).metrics.created = 0 + 1 :=
  (debounce_single_path ⟨"blake3", 250, fun _ => false⟩ ⟨[⟨"/a", true, [1], 2, true⟩]⟩).2.2.2
    100 300 "/a" ⟨[], [], ⟨0, 0, 0, 0⟩, []⟩ ⟨"/a", true, [1], 2, true⟩
    rfl rfl rfl rfl rfl rfl (by decide)

/-- C6 counterexample: on a rename event with a fresh debounce map, the
test on the "from" path misses, the Rust `&&` short-circuits, and the test
on the "to" path never runs — afterwards the map holds a timestamp for the
from path but none for the to path, refuting that each test observes and
updates its own path's timestamp. -/
theorem rename_debounce_to_timestamp_cex :
    (processRenameEvent ⟨"blake3", 250, fun _ => false⟩ ⟨[]⟩ 0 "/p" "/q"
        ⟨[], [], ⟨0, 0, 0, 0⟩, []⟩).last_evt = [("/p", 0)] ∧
    lookupLast (processRenameEvent ⟨"blake3", 250, fun _ => false⟩ ⟨[]⟩ 0 "/p" "/q"
        ⟨[], [], ⟨0, 0, 0, 0⟩, []⟩).last_evt "/q" = none := by
  decide

/-- C6 as amended: for a two-path rename event with neither path excluded,
the debounce test is applied to the "from" path first; only when it
reports a hit is the test applied to the "to" path, and processing is
suppressed (the state returned unchanged) exactly when both report hits.
When the "from" test misses, the "to" path's timestamp is not read or
updated at all and processing proceeds. -/
theorem rename_debounce_short_circuit (cfg : Config) (fs : Fs) (now : Int)
    (fromP toP : String) (s : WatchState)
    (hf : is_excluded cfg fromP = false) (ht : is_excluded cfg toP = false) :
    ((debounce_hit s.last_evt fromP (cfg.debounce_ms : Int) now).1 = false →
      processRenameEvent cfg fs now fromP toP s
        = applyRenameEvent cfg fs now fromP toP s
            (debounce_hit s.last_evt fromP (cfg.debounce_ms : Int) now).2 ∧
      (toP ≠ fromP →
        lookupLast (debounce_hit s.last_evt fromP (cfg.debounce_ms : Int) now).2 toP
          = lookupLast s.last_evt toP)) ∧
    ((debounce_hit s.last_evt fromP (cfg.debounce_ms : Int) now).1 = true →
      ((debounce_hit s.last_evt toP (cfg.debounce_ms : Int) now).1 = true →
        processRenameEvent cfg fs now fromP toP s = s) ∧
      ((debounce_hit s.last_evt toP (cfg.debounce_ms : Int) now).1 = false →
        processRenameEvent cfg fs now fromP toP s
          = applyRenameEvent cfg fs now fromP toP s
              (debounce_hit s.last_evt toP (cfg.debounce_ms : Int) now).2)) := by
  constructor
  · intro h1
    constructor
    · simp [processRenameEvent, hf, ht, h1]
    · intro hne
      rw [debounce_hit_false_eq s.last_evt fromP _ now h1]
      exact lookupLast_insertLast_ne s.last_evt now hne
  · intro h1
    have heq1 := debounce_hit_true_eq s.last_evt fromP (cfg.debounce_ms : Int) now h1
    constructor
    · intro h2
      have heq2 := debounce_hit_true_eq s.last_evt toP (cfg.debounce_ms : Int) now h2
      have hstep : processRenameEvent cfg fs now fromP toP s
          = { s with last_evt := (debounce_hit s.last_evt toP (cfg.debounce_ms : Int) now).2 } := by
        simp [processRenameEvent, hf, ht, h1, heq1, h2]
      rw [hstep, heq2]
    · intro h2
      simp [processRenameEvent, hf, ht, h1, heq1, h2]

/-- Witness for C6 as amended: the from-test misses on a fresh map, so the
event is processed and the to path's (absent) timestamp is untouched. -/
theorem rename_debounce_short_circuit_witness :
    processRenameEvent ⟨"blake3", 250, fun _ => false⟩ ⟨[]⟩ 0 "/p" "/q"
        ⟨[], [], ⟨0, 0, 0, 0⟩, []⟩
      = applyRenameEvent ⟨"blake3", 250, fun _ => false⟩ ⟨[]⟩ 0 "/p" "/q"
          ⟨[], [], ⟨0, 0, 0, 0⟩, []⟩
          (debounce_hit [] "/p" ((250 : Nat) : Int) 0).2 ∧
    (("/q" : String) ≠ "/p" →
      lookupLast (debounce_hit [] "/p" ((250 : Nat) : Int) 0).2 "/q" = lookupLast [] "/q") :=
  (rename_debounce_short_circuit ⟨"blake3", 250, fun _ => false⟩ ⟨[]⟩ 0 "/p" "/q"
      ⟨[], [], ⟨0, 0, 0, 0⟩, []⟩ rfl rfl).1 rfl

end SentraFim
